import Mathlib

/-!
Verification of the `redis_memory` store (`src/redis_memory/__init__.py`).

The embedding models:
  * JSON-serializable Python values (`JVal`, with mutual list/object types
    so that structural recursion and induction are available);
  * the mutation-tracking wrappers `SyncedList` / `SyncedDict` and the
    `wrap_sync` constructor (`WVal`);
  * the `Memory` store state (`MemState`): `_attributes`,
    `_last_modified`, `_queue`, `_is_connected_to_redis_at_least_once`;
  * the Redis backend as an association list from (prefixed) key to the
    parsed JSON object stored there.  The key prefixing `_key` is a fixed
    injective renaming and is folded out of the backend model; the
    configuration handling of `Memory.__init__` (host/port/prefix versus
    the process environment) is modelled separately.

Timestamps are `time.time_ns()` integers in the source; the index and
payloads carry them as JSON values (`JVal`), and Python's `>` / `>=`
comparisons are modelled by partial functions that succeed on
number/number and string/string pairs and fail (TypeError) otherwise.
Exceptions are modelled with an explicit error type; operations return
the state as it is at the moment an exception propagates, so partial
mutations are kept faithfully.
-/

namespace RedisMemory

mutual

/-- JSON-serializable Python values.  Numbers are modelled as integers
(the source only ever writes `time.time_ns()` integers and user JSON
data; floats are out of scope of the claims). -/
inductive JVal where
  | null : JVal
  | bool : Bool → JVal
  | num : Int → JVal
  | str : String → JVal
  | arr : JList → JVal
  | obj : JObj → JVal
deriving DecidableEq, Repr

inductive JList where
  | nil : JList
  | cons : JVal → JList → JList
deriving DecidableEq, Repr

inductive JObj where
  | nil : JObj
  | cons : String → JVal → JObj → JObj
deriving DecidableEq, Repr

end

/-- Lookup of a field in a JSON object, as Python `obj.get(k)` /
`"k" in obj` (first occurrence wins). -/
def JObj.find : JObj → String → Option JVal
  | .nil, _ => none
  | .cons k v rest, key => if k = key then some v else rest.find key

/-- Python values as they arrive at `__setattr__`: either a
JSON-serializable value or an object `json.dumps` rejects (modelled
abstractly by a tag). -/
inductive PyVal where
  | serial : JVal → PyVal
  | nonserial : Nat → PyVal
deriving DecidableEq, Repr

/-- `json.dumps(value)` succeeds exactly on serializable values. -/
def serializable : PyVal → Bool
  | .serial _ => true
  | .nonserial _ => false

/-!
## Mutation-tracking wrappers (`SyncedList`, `SyncedDict`, `wrap_sync`)

A `WVal` is a Python value as held in `Memory._attributes`: either a
plain (untracked) value, or one of the two tracking wrappers, each of
which stores its `_topmost_key`.  The `_parent` back-reference of the
source is positional in this tree model: the parent of a nested wrapper
is the enclosing wrapper, and the parent of the root is the `Memory`.
-/

mutual

/-- A value as held in `Memory._attributes`: either a plain (untracked)
Python value or one of the two tracking wrappers. -/
inductive WVal where
  | plain : JVal → WVal
  | slist : String → WList → WVal
  | sdict : String → WObj → WVal
deriving DecidableEq, Repr

inductive WList where
  | nil : WList
  | cons : WVal → WList → WList
deriving DecidableEq, Repr

inductive WObj where
  | nil : WObj
  | cons : String → WVal → WObj → WObj
deriving DecidableEq, Repr

end

/-- `_topmost_key` of a wrapper; a plain value has none. -/
def WVal.key : WVal → Option String
  | .plain _ => none
  | .slist k _ => some k
  | .sdict k _ => some k

mutual

/-- `wrap_sync(obj, parent, topmost_key)` (source lines 88–94): a dict
becomes a `SyncedDict`, a list a `SyncedList`, anything else is returned
unchanged. -/
def wrap_sync : JVal → String → WVal
  | .obj fields, k => .sdict k (wrapFields fields k)
  | .arr items, k => .slist k (wrapItems items k 0)
  | v, _ => .plain v

/-- `SyncedList.__init__` (lines 18–23): element `i` is wrapped with
topmost key `f"{topmost_key}[{i}]"` and parent the enclosing list. -/
def wrapItems : JList → String → Nat → WList
  | .nil, _, _ => .nil
  | .cons v rest, k, i =>
      .cons (wrap_sync v (k ++ "[" ++ toString i ++ "]")) (wrapItems rest k (i + 1))

/-- `SyncedDict.__init__` (lines 56–61): each value is wrapped with the
unchanged `topmost_key` and parent the enclosing dict. -/
def wrapFields : JObj → String → WObj
  | .nil, _ => .nil
  | .cons key v rest, k => .cons key (wrap_sync v k) (wrapFields rest k)

end

mutual

/-- The plain value a wrapper tree denotes: `json.dumps` serializes a
wrapper (a list/dict subclass) to exactly this value, and
`SyncedList.aslist` / `SyncedDict.asdict` (lines 40–51, 74–85) build a
container denoting it.  Object identity — which parts of an
`aslist`/`asdict` result are fresh and which are shared by reference
with the original — is modelled separately on a heap (`detachElemH` and
friends below). -/
def unwrapW : WVal → JVal
  | .plain v => v
  | .slist _ items => .arr (unwrapWList items)
  | .sdict _ fields => .obj (unwrapWObj fields)

def unwrapWList : WList → JList
  | .nil => .nil
  | .cons v rest => .cons (unwrapW v) (unwrapWList rest)

def unwrapWObj : WObj → JObj
  | .nil => .nil
  | .cons k v rest => .cons k (unwrapW v) (unwrapWObj rest)

end

mutual

/-- Round trip: detaching a freshly wrapped value returns the original
plain value. -/
theorem unwrap_wrap : ∀ (v : JVal) (k : String), unwrapW (wrap_sync v k) = v
  | .null, _ => rfl
  | .bool _, _ => rfl
  | .num _, _ => rfl
  | .str _, _ => rfl
  | .arr items, k => by
      simp only [wrap_sync, unwrapW, JVal.arr.injEq]
      exact unwrapList_wrapItems items k 0
  | .obj fields, k => by
      simp only [wrap_sync, unwrapW, JVal.obj.injEq]
      exact unwrapObj_wrapFields fields k

theorem unwrapList_wrapItems :
    ∀ (l : JList) (k : String) (i : Nat), unwrapWList (wrapItems l k i) = l
  | .nil, _, _ => rfl
  | .cons v rest, k, i => by
      simp only [wrapItems, unwrapWList, JList.cons.injEq]
      exact ⟨unwrap_wrap v _, unwrapList_wrapItems rest k (i + 1)⟩

theorem unwrapObj_wrapFields :
    ∀ (o : JObj) (k : String), unwrapWObj (wrapFields o k) = o
  | .nil, _ => rfl
  | .cons key v rest, k => by
      simp only [wrapFields, unwrapWObj, JObj.cons.injEq, true_and]
      exact ⟨unwrap_wrap v k, unwrapObj_wrapFields rest k⟩

end

/-!
## Store state and backend
-/

/-- Upsert into an association list (Python dict assignment `m[k] = v`:
replace in place if present, else append). -/
def aset {α : Type} : List (String × α) → String → α → List (String × α)
  | [], k, v => [(k, v)]
  | (k', v') :: rest, k, v =>
      if k' = k then (k, v) :: rest else (k', v') :: aset rest k v

/-- Python dict lookup `m.get(k)` (first occurrence wins). -/
def alookup {α : Type} : List (String × α) → String → Option α
  | [], _ => none
  | (k', v') :: rest, k => if k' = k then some v' else alookup rest k

/-- Python `del m[k]` (removes every pair under `k`; dicts built by
`aset` from the empty dict hold each key at most once). -/
def aerase {α : Type} : List (String × α) → String → List (String × α)
  | [], _ => []
  | (k', v') :: rest, k => if k' = k then aerase rest k else (k', v') :: aerase rest k

/-- The `{value, last_modified}` payload (source line 323 and friends).
`value = JVal.null` is the deletion sentinel; `last_modified` is kept as
a JSON value exactly as Python would hold it. -/
structure Payload where
  value : JVal
  last_modified : JVal
deriving DecidableEq, Repr

/-- `json.dumps(payload)` / `json.loads` round trip: the JSON object a
payload is stored as. -/
def Payload.toJVal (p : Payload) : JVal :=
  .obj (.cons "value" p.value (.cons "last_modified" p.last_modified .nil))

/-- The Redis backend: parsed JSON object per key.  `Memory._key`
prefixing is a fixed injective renaming, folded out of the model. -/
abbrev Backend := List (String × JVal)

/-- Python `a > b` on JSON values: defined on number/number and
string/string pairs, a TypeError (`none`) otherwise. -/
def pyGT : JVal → JVal → Option Bool
  | .num a, .num b => some (decide (a > b))
  | .str a, .str b => some (decide (a > b))
  | _, _ => none

/-- Python `a >= b` on JSON values, with the same domain as `pyGT`. -/
def pyGE : JVal → JVal → Option Bool
  | .num a, .num b => some (decide (a ≥ b))
  | .str a, .str b => some (decide (a ≥ b))
  | _, _ => none

/-- Exceptions the modelled operations can raise.  `attributeError` is
the spec's `NotFound`; `serializationError` is the exception propagating
out of `json.dumps` on a non-serializable value (a `TypeError` in
Python, abstracted by the spec as `SerializationError`); `keyError` and
`typeError` are raised by subscripting malformed backend objects and by
comparing incomparable timestamps. -/
inductive Err where
  | attributeError
  | serializationError
  | keyError
  | typeError
deriving DecidableEq, Repr

instance {ε α : Type} [DecidableEq ε] [DecidableEq α] : DecidableEq (Except ε α) :=
  fun a b =>
    match a, b with
    | .ok x, .ok y =>
        if h : x = y then isTrue (by rw [h]) else isFalse (by simp [h])
    | .error x, .error y =>
        if h : x = y then isTrue (by rw [h]) else isFalse (by simp [h])
    | .ok _, .error _ => isFalse (by simp)
    | .error _, .ok _ => isFalse (by simp)

/-- The process-local state of one `Memory` instance (lines 146–153).
Underscore-prefixed Python attributes other than these four are plain
object fields and are not modelled. -/
structure MemState where
  attributes : List (String × WVal)
  last_modified : List (String × JVal)
  queue : List (String × Payload)
  connectedOnce : Bool
deriving DecidableEq, Repr

/-- The state of a freshly constructed `Memory` before
`_load_from_redis` runs (lines 146–153). -/
def initState : MemState :=
  { attributes := [], last_modified := [], queue := [], connectedOnce := false }

/-!
## Operations

Each operation takes `reachable : Bool`, the environment's verdict on
whether `_connect()` succeeds during the call, and `now : Int` for the
`time.time_ns()` reading where one is taken.  Operations return the
state as it stands when they return or when an exception propagates.
-/

/-- `name.startswith("_")`: the test selecting the reserved/internal
attribute branch (lines 301, 345, 419). -/
def underscored (name : String) : Bool :=
  match name.data with
  | '_' :: _ => true
  | _ => false

/-- `Memory.__setattr__` (lines 294–311) followed by `Memory._set`
(lines 313–337), for a non-underscore `name`.  Underscore names take the
plain-object branch (line 301) and leave the modelled state unchanged. -/
def mem_set (reachable : Bool) (now : Int) (s : MemState) (b : Backend)
    (name : String) (v : PyVal) : MemState × Backend × Except Err Unit :=
  if underscored name then (s, b, .ok ()) else
  match v with
  | .nonserial _ =>
      -- `json.dumps(value)` raises before `_set` runs: no state change.
      (s, b, .error .serializationError)
  | .serial jv =>
      let s' : MemState :=
        { s with attributes := aset s.attributes name (wrap_sync jv name),
                 last_modified := aset s.last_modified name (.num now) }
      let payload : Payload := ⟨jv, .num now⟩
      if reachable then
        ({ s' with connectedOnce := true }, aset b name payload.toJVal, .ok ())
      else
        ({ s' with queue := s'.queue ++ [(name, payload)] }, b, .ok ())

/-- `Memory.__getattr__` (lines 339–367) for a non-underscore `name`.
On the unreachable path the source tests `value is not None`, so a
locally cached `None` falls through to `AttributeError`.  On the
reachable path `obj["value"]` and `obj["last_modified"]` are subscripted
unconditionally; `_attributes` is updated before `obj["last_modified"]`
is read, so a payload lacking that field leaves a partial update. -/
def mem_get (reachable : Bool) (s : MemState) (b : Backend)
    (name : String) : MemState × Except Err WVal :=
  -- Underscore names short-circuit to `super().__getattribute__` (line
  -- 345); for a name that is not an object field this raises.
  if underscored name then (s, .error .attributeError) else
  if ¬ reachable then
    match alookup s.attributes name with
    | some v => if v = .plain .null then (s, .error .attributeError) else (s, .ok v)
    | none => (s, .error .attributeError)
  else
    match alookup b name with
    | none => (s, .error .attributeError)
    | some raw =>
      let s₁ := { s with connectedOnce := true }
      match raw with
      | .obj fs =>
        match fs.find "value" with
        | none => (s₁, .error .keyError)
        | some v =>
          let s₂ := { s₁ with attributes := aset s₁.attributes name (wrap_sync v name) }
          match fs.find "last_modified" with
          | none => (s₂, .error .keyError)
          | some lm =>
              ({ s₂ with last_modified := aset s₂.last_modified name lm },
               .ok (wrap_sync v name))
      | _ => (s₁, .error .typeError)

/-- `Memory.__delattr__` (lines 412–444) for a non-underscore `name`.
When unreachable, the deletion payload is queued and the subsequent
`client.delete` raises `UnboundLocalError`, which the source swallows. -/
def mem_del (reachable : Bool) (now : Int) (s : MemState) (b : Backend)
    (name : String) : MemState × Backend × Except Err Unit :=
  if underscored name then (s, b, .ok ()) else
  match alookup s.attributes name with
  | none => (s, b, .error .attributeError)
  | some _ =>
    let s' : MemState :=
      { s with attributes := aerase s.attributes name,
               last_modified := aerase s.last_modified name }
    if reachable then
      ({ s' with connectedOnce := true }, aerase b name, .ok ())
    else
      ({ s' with queue := s'.queue ++ [(name, ⟨.null, .num now⟩)] }, b, .ok ())

/-- `Memory.sync` (lines 369–410).  The payload serializes the wrapper
back to its plain value; `local_last_modified` defaults to `0` when the
index has no entry; `obj.get("value", obj)` defaults to the whole
object; comparing incomparable timestamps raises. -/
def mem_sync (reachable : Bool) (s : MemState) (b : Backend)
    (name : String) : MemState × Backend × Except Err Unit :=
  match alookup s.attributes name with
  | none => (s, b, .error .attributeError)
  | some localW =>
    let llm : JVal := (alookup s.last_modified name).getD (.num 0)
    let payload : Payload := ⟨unwrapW localW, llm⟩
    if ¬ reachable then
      ({ s with queue := s.queue ++ [(name, payload)] }, b, .ok ())
    else
      match alookup b name with
      | none =>
          ({ s with connectedOnce := true }, aset b name payload.toJVal, .ok ())
      | some raw =>
        match raw with
        | .obj fs =>
          let rv : JVal := (fs.find "value").getD raw
          let rlm : JVal := (fs.find "last_modified").getD (.num 0)
          match pyGE llm rlm with
          | none => (s, b, .error .typeError)
          | some true =>
              ({ s with connectedOnce := true }, aset b name payload.toJVal, .ok ())
          | some false =>
              ({ s with attributes := aset s.attributes name (wrap_sync rv name),
                        last_modified := aset s.last_modified name rlm },
               b, .ok ())
        | _ => (s, b, .error .typeError)

/-- One iteration of the `_load_from_redis` scan loop (lines 274–290).
A fetched object that is a dict containing both `"value"` and
`"last_modified"` has those fields stored (the value is stored plain,
not wrapped); any other object is stored whole as the value, with no
timestamp recorded.  Per-key exceptions are caught and skip the key. -/
def loadEntry (s : MemState) (e : String × JVal) : MemState :=
  let (name, o) := e
  let s' :=
    match o with
    | .obj fs =>
      match fs.find "value", fs.find "last_modified" with
      | some v, some lm =>
          { s with attributes := aset s.attributes name (.plain v),
                   last_modified := aset s.last_modified name lm }
      | _, _ => { s with attributes := aset s.attributes name (.plain o) }
    | _ => { s with attributes := aset s.attributes name (.plain o) }
  { s' with connectedOnce := true }

/-- `Memory._load_from_redis` (lines 268–292): when the backend is
unreachable the failure is swallowed and nothing is loaded. -/
def mem_load (reachable : Bool) (s : MemState) (b : Backend) : MemState :=
  if reachable then b.foldl loadEntry s else s

/-- The timestamp `_flush_queue` reads for a queued key (lines 223–227):
`0` when the key is absent or the stored object has no `last_modified`
field; `obj.get` on a non-dict raises. -/
def flushReadTs (b : Backend) (key : String) : Option JVal :=
  match alookup b key with
  | none => some (.num 0)
  | some (.obj fs) => some ((fs.find "last_modified").getD (.num 0))
  | some _ => none

/-- The body of one `_flush_queue` loop iteration after the entry has
been popped (lines 218–237): skip when the backend timestamp is strictly
newer, else delete on the null sentinel or write the payload.  Returns
the new backend and whether the entry was applied (which sets the
connected-once flag, line 237). -/
def flushStep (b : Backend) (e : String × Payload) : Option (Backend × Bool) :=
  let (key, p) := e
  match flushReadTs b key with
  | none => none
  | some rt =>
    match pyGT rt p.last_modified with
    | none => none
    | some true => some (b, false)
    | some false =>
        if p.value = .null then some (aerase b key, true)
        else some (aset b key p.toJVal, true)

/-- The `while self._queue` loop of `_flush_queue` (lines 217–237),
run to completion or to the first exception.  Returns the backend, the
connected-once flag, the remaining queue (entries are popped before
being processed, so a failing entry is already gone), and whether the
drain completed. -/
def flushGo (b : Backend) (flag : Bool) :
    List (String × Payload) → Backend × Bool × List (String × Payload) × Bool
  | [] => (b, flag, [], true)
  | e :: rest =>
    match flushStep b e with
    | none => (b, flag, rest, false)
    | some (b', applied) => flushGo b' (flag || applied) rest

/-- `Memory._flush_queue` (lines 201–237) once a connection has been
obtained (the call blocks retrying until one is, so reachability is not
a parameter).  The final `Bool` records whether the drain ran to
completion without an exception. -/
def mem_flush (s : MemState) (b : Backend) : MemState × Backend × Bool :=
  let (b', flag, rest, ok) := flushGo b s.connectedOnce s.queue
  ({ s with queue := rest, connectedOnce := flag }, b', ok)

/-!
## Association-list lemmas
-/

theorem alookup_aset {α : Type} (m : List (String × α)) (k : String) (v : α)
    (n : String) : alookup (aset m k v) n = if k = n then some v else alookup m n := by
  induction m with
  | nil => simp [aset, alookup]
  | cons hd tl ih =>
      obtain ⟨k', v'⟩ := hd
      simp only [aset]
      by_cases hk : k' = k
      · subst hk
        simp only [if_pos rfl, alookup]
        by_cases hn : k' = n <;> simp [hn]
      · rw [if_neg hk]
        simp only [alookup]
        by_cases hn : k' = n
        · subst hn
          have hkn : ¬ k = k' := fun h => hk h.symm
          simp [hkn]
        · simp [hn, ih]

theorem alookup_aerase {α : Type} (m : List (String × α)) (k : String)
    (n : String) : alookup (aerase m k) n = if n = k then none else alookup m n := by
  induction m with
  | nil =>
      simp only [aerase, alookup]
      by_cases h : n = k <;> simp [h]
  | cons hd tl ih =>
      obtain ⟨k', v'⟩ := hd
      simp only [aerase]
      by_cases hk : k' = k
      · subst hk
        rw [if_pos rfl, ih]
        by_cases hn : n = k'
        · simp [hn]
        · have hkn : ¬ k' = n := fun h => hn h.symm
          simp [alookup, hn, hkn]
      · rw [if_neg hk]
        simp only [alookup]
        by_cases hn : k' = n
        · have hnk : ¬ n = k := fun h => hk (by rw [hn, h])
          simp [hn, hnk]
        · simp [hn, ih]

/-!
## C1 — queue drain
-/

theorem flushGo_empty_of_ok (q : List (String × Payload)) :
    ∀ (b : Backend) (f : Bool), (flushGo b f q).2.2.2 = true → (flushGo b f q).2.2.1 = [] := by
  induction q with
  | nil => intro b f _; rfl
  | cons e rest ih =>
      intro b f h
      cases hs : flushStep b e with
      | none => simp [flushGo, hs] at h
      | some r => obtain ⟨b', applied⟩ := r
                  simpa [flushGo, hs] using ih b' (f || applied) (by simpa [flushGo, hs] using h)

/-- C1: during one queue drain, entries are processed head to tail; an
entry whose backend timestamp is strictly newer is discarded with the
backend untouched; otherwise the null deletion sentinel deletes the
backend key and any other payload is written; every processed entry
leaves the queue, and a drain that completes leaves the queue empty. -/
theorem flush_queue_drain :
    (∀ (s : MemState) (b : Backend),
        (mem_flush s b).2.2 = true → (mem_flush s b).1.queue = []) ∧
    (∀ (b : Backend) (f : Bool) (key : String) (p : Payload)
        (q : List (String × Payload)) (rt : JVal),
        flushReadTs b key = some rt → pyGT rt p.last_modified = some true →
        flushGo b f ((key, p) :: q) = flushGo b f q) ∧
    (∀ (b : Backend) (f : Bool) (key : String) (p : Payload)
        (q : List (String × Payload)) (rt : JVal),
        flushReadTs b key = some rt → pyGT rt p.last_modified = some false →
        p.value = .null →
        flushGo b f ((key, p) :: q) = flushGo (aerase b key) true q) ∧
    (∀ (b : Backend) (f : Bool) (key : String) (p : Payload)
        (q : List (String × Payload)) (rt : JVal),
        flushReadTs b key = some rt → pyGT rt p.last_modified = some false →
        p.value ≠ .null →
        flushGo b f ((key, p) :: q) = flushGo (aset b key p.toJVal) true q) := by
  refine ⟨?_, ?_, ?_, ?_⟩
  · intro s b h
    simp only [mem_flush] at h ⊢
    exact flushGo_empty_of_ok s.queue b s.connectedOnce h
  · intro b f key p q rt h1 h2
    simp [flushGo, flushStep, h1, h2]
  · intro b f key p q rt h1 h2 h3
    simp [flushGo, flushStep, h1, h2, h3]
  · intro b f key p q rt h1 h2 h3
    simp [flushGo, flushStep, h1, h2, h3]

/-- Witness for `flush_queue_drain` at concrete inputs: a queued write
drains to an empty queue; a backend value timestamped 10 makes a queued
entry timestamped 5 a no-op; entries timestamped 20 delete (null
sentinel) or overwrite the key. -/
theorem flush_queue_drain_w :
    ((mem_flush ⟨[], [], [("a", ⟨.num 1, .num 5⟩)], false⟩ []).1.queue = []) ∧
    (flushGo [("k", (Payload.mk (.num 0) (.num 10)).toJVal)] false
        [("k", ⟨.num 1, .num 5⟩)] =
      flushGo [("k", (Payload.mk (.num 0) (.num 10)).toJVal)] false []) ∧
    (flushGo [("k", (Payload.mk (.num 0) (.num 10)).toJVal)] false
        [("k", ⟨.null, .num 20⟩)] =
      flushGo (aerase [("k", (Payload.mk (.num 0) (.num 10)).toJVal)] "k") true []) ∧
    (flushGo [("k", (Payload.mk (.num 0) (.num 10)).toJVal)] false
        [("k", ⟨.num 2, .num 20⟩)] =
      flushGo (aset [("k", (Payload.mk (.num 0) (.num 10)).toJVal)] "k"
        (Payload.mk (.num 2) (.num 20)).toJVal) true []) := by
  refine ⟨flush_queue_drain.1 _ _ (by decide),
          flush_queue_drain.2.1 _ _ _ _ _ (.num 10) (by decide) (by decide),
          flush_queue_drain.2.2.1 _ _ _ _ _ (.num 10) (by decide) (by decide) (by decide),
          flush_queue_drain.2.2.2 _ _ _ _ _ (.num 10) (by decide) (by decide) (by decide)⟩

/-!
## C2 — three-way reconciliation in `sync`
-/

/-- C2: with the backend reachable and `name` known locally, `sync`
writes the local payload when the backend has no entry; overwrites the
backend when the local timestamp is greater or equal (local wins ties);
and pulls the backend value into the local cache (re-wrapped) together
with its timestamp, leaving the backend unchanged, when the backend
timestamp is strictly greater. -/
theorem sync_three_way :
    ∀ (s : MemState) (b : Backend) (name : String) (w : WVal) (lt : Int),
      alookup s.attributes name = some w →
      (alookup s.last_modified name).getD (.num 0) = .num lt →
      (alookup b name = none →
          mem_sync true s b name =
            ({ s with connectedOnce := true },
             aset b name (Payload.mk (unwrapW w) (.num lt)).toJVal, .ok ())) ∧
      (∀ (fs : JObj) (rt : Int),
          alookup b name = some (.obj fs) →
          (fs.find "last_modified").getD (.num 0) = .num rt →
          (lt ≥ rt →
              mem_sync true s b name =
                ({ s with connectedOnce := true },
                 aset b name (Payload.mk (unwrapW w) (.num lt)).toJVal, .ok ())) ∧
          (rt > lt →
              mem_sync true s b name =
                ({ s with
                    attributes :=
                      aset s.attributes name (wrap_sync ((fs.find "value").getD (.obj fs)) name),
                    last_modified := aset s.last_modified name (.num rt) },
                 b, .ok ()))) := by
  intro s b name w lt hw hlt
  constructor
  · intro hb
    simp [mem_sync, hw, hb, hlt]
  · intro fs rt hb hrt
    constructor
    · intro hge
      simp [mem_sync, hw, hb, hlt, hrt, pyGE, hge]
    · intro hgt
      have hnge : ¬ (lt ≥ rt) := by omega
      simp [mem_sync, hw, hb, hlt, hrt, pyGE, hnge]

/-- Witness for `sync_three_way`: a store holding `foo = 1` at
timestamp 5 against (i) an empty backend, (ii) a backend entry at
timestamp 3 (local wins), (iii) a backend entry at timestamp 9 (backend
wins and the backend is untouched). -/
theorem sync_three_way_w :
    (mem_sync true ⟨[("foo", .plain (.num 1))], [("foo", .num 5)], [], true⟩ [] "foo" =
      (⟨[("foo", .plain (.num 1))], [("foo", .num 5)], [], true⟩,
       aset [] "foo" (Payload.mk (.num 1) (.num 5)).toJVal, .ok ())) ∧
    (mem_sync true ⟨[("foo", .plain (.num 1))], [("foo", .num 5)], [], true⟩
        [("foo", (Payload.mk (.num 2) (.num 3)).toJVal)] "foo" =
      (⟨[("foo", .plain (.num 1))], [("foo", .num 5)], [], true⟩,
       aset [("foo", (Payload.mk (.num 2) (.num 3)).toJVal)] "foo"
         (Payload.mk (.num 1) (.num 5)).toJVal, .ok ())) ∧
    (mem_sync true ⟨[("foo", .plain (.num 1))], [("foo", .num 5)], [], true⟩
        [("foo", (Payload.mk (.num 2) (.num 9)).toJVal)] "foo" =
      (⟨[("foo", .plain (.num 2))], [("foo", .num 9)], [], true⟩,
       [("foo", (Payload.mk (.num 2) (.num 9)).toJVal)], .ok ())) := by
  have h1 := (sync_three_way ⟨[("foo", .plain (.num 1))], [("foo", .num 5)], [], true⟩
    [] "foo" (.plain (.num 1)) 5 (by decide) (by decide)).1 (by decide)
  have h2 := ((sync_three_way ⟨[("foo", .plain (.num 1))], [("foo", .num 5)], [], true⟩
    [("foo", (Payload.mk (.num 2) (.num 3)).toJVal)] "foo" (.plain (.num 1)) 5
    (by decide) (by decide)).2 (.cons "value" (.num 2) (.cons "last_modified" (.num 3) .nil)) 3
    (by decide) (by decide)).1 (by omega)
  have h3 := ((sync_three_way ⟨[("foo", .plain (.num 1))], [("foo", .num 5)], [], true⟩
    [("foo", (Payload.mk (.num 2) (.num 9)).toJVal)] "foo" (.plain (.num 1)) 5
    (by decide) (by decide)).2 (.cons "value" (.num 2) (.cons "last_modified" (.num 9) .nil)) 9
    (by decide) (by decide)).2 (by omega)
  refine ⟨?_, ?_, ?_⟩
  · rw [h1]; decide
  · rw [h2]; decide
  · rw [h3]; decide

/-!
## C3 — read path
-/

/-- C3 counterexample: setting `foo = None` (a serializable value)
caches `None` locally, yet `get` with the backend unreachable raises
`AttributeError` although `foo` is present in the local cache — the
source tests `value is not None` rather than membership (line 353). -/
theorem getattr_null_cache_counterexample :
    (mem_set true 5 initState [] "foo" (.serial .null)).1.attributes =
      [("foo", .plain .null)] ∧
    (mem_get false (mem_set true 5 initState [] "foo" (.serial .null)).1 []
        "foo").2 = .error .attributeError := by
  decide

/-- C3 (amended): with the backend unreachable, `get` returns the cached
value when it is present and not `None`, and raises `AttributeError`
when it is absent or cached as `None`; with the backend reachable and
the key absent, it raises `AttributeError` even when the name is cached;
with the backend reachable and a payload present, the `value` and
`last_modified` fields are stored into the cache and index and the
wrapped value is returned.  The unreachable path never surfaces the
connection failure. -/
theorem getattr_cases :
    ∀ (s : MemState) (b : Backend) (name : String),
      underscored name = false →
      ((∀ w, alookup s.attributes name = some w → w ≠ .plain .null →
          mem_get false s b name = (s, .ok w)) ∧
       (alookup s.attributes name = none ∨
          alookup s.attributes name = some (.plain .null) →
          mem_get false s b name = (s, .error .attributeError))) ∧
      (alookup b name = none →
          mem_get true s b name = (s, .error .attributeError)) ∧
      (∀ (fs : JObj) (v lm : JVal),
          alookup b name = some (.obj fs) →
          fs.find "value" = some v → fs.find "last_modified" = some lm →
          mem_get true s b name =
            ({ s with attributes := aset s.attributes name (wrap_sync v name),
                      last_modified := aset s.last_modified name lm,
                      connectedOnce := true },
             .ok (wrap_sync v name))) := by
  intro s b name hname
  refine ⟨⟨?_, ?_⟩, ?_, ?_⟩
  · intro w hw hnn
    simp [mem_get, hname, hw, hnn]
  · rintro (h | h) <;> simp [mem_get, hname, h]
  · intro hb
    simp [mem_get, hname, hb]
  · intro fs v lm hb hv hlm
    simp [mem_get, hname, hb, hv, hlm]

/-- Witness for `getattr_cases` on concrete states: a cached `bar = 7`
read offline; a miss offline; a locally cached name rejected because the
reachable backend has no key; and a reachable fetch of a payload. -/
theorem getattr_cases_w :
    (mem_get false ⟨[("bar", .plain (.num 7))], [("bar", .num 3)], [], true⟩ []
        "bar" = (⟨[("bar", .plain (.num 7))], [("bar", .num 3)], [], true⟩,
                 .ok (.plain (.num 7)))) ∧
    (mem_get false initState [] "bar" = (initState, .error .attributeError)) ∧
    (mem_get true ⟨[("bar", .plain (.num 7))], [("bar", .num 3)], [], true⟩ []
        "bar" = (⟨[("bar", .plain (.num 7))], [("bar", .num 3)], [], true⟩,
                 .error .attributeError)) ∧
    (mem_get true initState [("bar", (Payload.mk (.num 7) (.num 3)).toJVal)]
        "bar" =
      ({ initState with
          attributes := aset initState.attributes "bar" (wrap_sync (.num 7) "bar"),
          last_modified := aset initState.last_modified "bar" (.num 3),
          connectedOnce := true },
       .ok (wrap_sync (.num 7) "bar"))) := by
  refine ⟨(getattr_cases ⟨[("bar", .plain (.num 7))], [("bar", .num 3)], [], true⟩
            [] "bar" (by decide)).1.1 (.plain (.num 7)) (by decide) (by decide),
          (getattr_cases initState [] "bar" (by decide)).1.2 (Or.inl (by decide)),
          (getattr_cases ⟨[("bar", .plain (.num 7))], [("bar", .num 3)], [], true⟩
            [] "bar" (by decide)).2.1 (by decide),
          (getattr_cases initState [("bar", (Payload.mk (.num 7) (.num 3)).toJVal)]
            "bar" (by decide)).2.2
            (.cons "value" (.num 7) (.cons "last_modified" (.num 3) .nil))
            (.num 7) (.num 3) (by decide) (by decide) (by decide)⟩

/-!
## C4 — delete path
-/

/-- C4: `delete` raises `AttributeError` when the name is not cached and
changes nothing; otherwise it removes the name from both the cache and
the index, deletes the backend key when the backend is reachable, and
when it is unreachable appends the `{value: null, last_modified: now}`
deletion sentinel to the queue without surfacing the failure. -/
theorem delattr_cases :
    ∀ (reachable : Bool) (now : Int) (s : MemState) (b : Backend) (name : String),
      underscored name = false →
      (alookup s.attributes name = none →
          mem_del reachable now s b name = (s, b, .error .attributeError)) ∧
      (∀ w, alookup s.attributes name = some w →
        alookup (mem_del reachable now s b name).1.attributes name = none ∧
        alookup (mem_del reachable now s b name).1.last_modified name = none ∧
        (reachable = true →
          mem_del reachable now s b name =
            ({ s with attributes := aerase s.attributes name,
                      last_modified := aerase s.last_modified name,
                      connectedOnce := true },
             aerase b name, .ok ())) ∧
        (reachable = false →
          mem_del reachable now s b name =
            ({ s with attributes := aerase s.attributes name,
                      last_modified := aerase s.last_modified name,
                      queue := s.queue ++ [(name, ⟨.null, .num now⟩)] },
             b, .ok ()))) := by
  intro reachable now s b name hname
  constructor
  · intro h
    simp [mem_del, hname, h]
  · intro w hw
    refine ⟨?_, ?_, ?_, ?_⟩
    · cases reachable <;> simp [mem_del, hname, hw, alookup_aerase]
    · cases reachable <;> simp [mem_del, hname, hw, alookup_aerase]
    · intro hr; subst hr; simp [mem_del, hname, hw]
    · intro hr; subst hr; simp [mem_del, hname, hw]

/-- Witness for `delattr_cases`: deleting a missing name fails; deleting
`foo` removes it from both maps, with the reachable call erasing the
backend key and the unreachable call queuing the null sentinel. -/
theorem delattr_cases_w :
    (mem_del true 9 initState [] "foo" = (initState, [], .error .attributeError)) ∧
    (alookup (mem_del true 9 ⟨[("foo", .plain (.num 1))], [("foo", .num 2)], [], true⟩
        [("foo", .num 0)] "foo").1.attributes "foo" = none) ∧
    (alookup (mem_del true 9 ⟨[("foo", .plain (.num 1))], [("foo", .num 2)], [], true⟩
        [("foo", .num 0)] "foo").1.last_modified "foo" = none) ∧
    (mem_del true 9 ⟨[("foo", .plain (.num 1))], [("foo", .num 2)], [], true⟩
        [("foo", .num 0)] "foo" =
      ({ attributes := aerase [("foo", .plain (.num 1))] "foo",
         last_modified := aerase [("foo", .num 2)] "foo",
         queue := [], connectedOnce := true },
       aerase [("foo", .num 0)] "foo", .ok ())) ∧
    (mem_del false 9 ⟨[("foo", .plain (.num 1))], [("foo", .num 2)], [], true⟩
        [("foo", .num 0)] "foo" =
      ({ attributes := aerase [("foo", .plain (.num 1))] "foo",
         last_modified := aerase [("foo", .num 2)] "foo",
         queue := [("foo", ⟨.null, .num 9⟩)], connectedOnce := true },
       [("foo", .num 0)], .ok ())) := by
  refine ⟨(delattr_cases true 9 initState [] "foo" (by decide)).1 (by decide),
          ((delattr_cases true 9 ⟨[("foo", .plain (.num 1))], [("foo", .num 2)], [], true⟩
            [("foo", .num 0)] "foo" (by decide)).2 (.plain (.num 1)) (by decide)).1,
          ((delattr_cases true 9 ⟨[("foo", .plain (.num 1))], [("foo", .num 2)], [], true⟩
            [("foo", .num 0)] "foo" (by decide)).2 (.plain (.num 1)) (by decide)).2.1,
          ?_, ?_⟩
  · rw [((delattr_cases true 9 ⟨[("foo", .plain (.num 1))], [("foo", .num 2)], [], true⟩
      [("foo", .num 0)] "foo" (by decide)).2 (.plain (.num 1)) (by decide)).2.2.1 rfl]
  · rw [((delattr_cases false 9 ⟨[("foo", .plain (.num 1))], [("foo", .num 2)], [], true⟩
      [("foo", .num 0)] "foo" (by decide)).2 (.plain (.num 1)) (by decide)).2.2.2 rfl]
    decide

/-!
## C6 — rejection of non-serializable values
-/

/-- C6: setting a non-serializable value raises out of the `json.dumps`
probe before `_set` runs, so the cache, the index, the queue and the
backend are all returned exactly as they were. -/
theorem setattr_nonserializable_rejected :
    ∀ (reachable : Bool) (now : Int) (s : MemState) (b : Backend)
      (name : String) (v : PyVal),
      underscored name = false → serializable v = false →
      mem_set reachable now s b name v = (s, b, .error .serializationError) := by
  intro reachable now s b name v hname hv
  cases v with
  | serial jv => simp [serializable] at hv
  | nonserial t => simp [mem_set, hname]

/-- Witness for `setattr_nonserializable_rejected`: a non-serializable
object assigned to `bad` on a store with one cached attribute and one
queued write changes nothing. -/
theorem setattr_nonserializable_rejected_w :
    mem_set true 7 ⟨[("a", .plain (.num 1))], [("a", .num 2)],
        [("q", ⟨.num 3, .num 4⟩)], false⟩ [("b", .num 5)] "bad" (.nonserial 0) =
      (⟨[("a", .plain (.num 1))], [("a", .num 2)], [("q", ⟨.num 3, .num 4⟩)], false⟩,
       [("b", .num 5)], .error .serializationError) :=
  setattr_nonserializable_rejected true 7 _ _ "bad" (.nonserial 0)
    (by decide) (by decide)

/-!
## C7 — handling of fetched objects
-/

/-- Whether a fetched JSON object is a dict containing both `"value"`
and `"last_modified"` (the test on lines 279–283). -/
def properPayload (o : JVal) : Bool :=
  match o with
  | .obj fs => (fs.find "value").isSome && (fs.find "last_modified").isSome
  | _ => false

/-- C7 counterexample.  Read path: a backend object lacking both fields
makes `get` raise a `KeyError` at `obj["value"]` (line 361) instead of
being treated as the value with timestamp 0, and nothing is cached.
Preload: an object with a `value` field but no `last_modified` is
stored whole (else-branch of lines 279–287), not through its fields. -/
theorem fetch_fallback_counterexample :
    ((mem_get true initState [("foo", .obj (.cons "a" (.num 1) .nil))] "foo").2 =
        .error .keyError) ∧
    ((mem_get true initState [("foo", .obj (.cons "a" (.num 1) .nil))]
        "foo").1.attributes = []) ∧
    ((loadEntry initState ("foo", .obj (.cons "value" (.num 5) .nil))).attributes =
        [("foo", .plain (.obj (.cons "value" (.num 5) .nil)))]) ∧
    ((loadEntry initState ("foo", .obj (.cons "value" (.num 5) .nil))).last_modified =
        []) := by
  decide

/-- C7 (amended): on construction-time preload, a fetched object that is
a dict with both `value` and `last_modified` fields has those fields
stored as the cached value and timestamp; any other object is stored
whole as the value with no timestamp recorded.  On the read path there
is no fallback: the fields are subscripted unconditionally, so a
well-formed payload is used as stored and a malformed object raises. -/
theorem fetched_object_handling :
    ∀ (s : MemState) (name : String) (o : JVal),
      (∀ (fs : JObj) (v lm : JVal), o = .obj fs →
          fs.find "value" = some v → fs.find "last_modified" = some lm →
          loadEntry s (name, o) =
            { s with attributes := aset s.attributes name (.plain v),
                     last_modified := aset s.last_modified name lm,
                     connectedOnce := true }) ∧
      (properPayload o = false →
          loadEntry s (name, o) =
            { s with attributes := aset s.attributes name (.plain o),
                     connectedOnce := true }) ∧
      (∀ (b : Backend) (fs : JObj) (v lm : JVal),
          underscored name = false →
          alookup b name = some (.obj fs) →
          fs.find "value" = some v → fs.find "last_modified" = some lm →
          (mem_get true s b name).2 = .ok (wrap_sync v name)) ∧
      (∀ (b : Backend),
          underscored name = false →
          alookup b name = some o → properPayload o = false →
          ∃ e, (mem_get true s b name).2 = .error e) := by
  intro s name o
  refine ⟨?_, ?_, ?_, ?_⟩
  · intro fs v lm ho hv hlm
    subst ho
    simp [loadEntry, hv, hlm]
  · intro hp
    cases o with
    | obj fs =>
        simp only [properPayload, Bool.and_eq_false_iff] at hp
        rcases hp with hp | hp
        · cases hv : fs.find "value" with
          | none => simp [loadEntry, hv]
          | some v => simp [hv, Option.isSome] at hp
        · cases hv : fs.find "value" with
          | none => simp [loadEntry, hv]
          | some v =>
              cases hlm : fs.find "last_modified" with
              | none => simp [loadEntry, hv, hlm]
              | some lm => simp [hlm, Option.isSome] at hp
    | null => simp [loadEntry]
    | bool x => simp [loadEntry]
    | num x => simp [loadEntry]
    | str x => simp [loadEntry]
    | arr x => simp [loadEntry]
  · intro b fs v lm hname hb hv hlm
    simp [mem_get, hname, hb, hv, hlm]
  · intro b hname hb hp
    cases o with
    | obj fs =>
        simp only [properPayload, Bool.and_eq_false_iff] at hp
        rcases hp with hp | hp
        · cases hv : fs.find "value" with
          | none => exact ⟨.keyError, by simp [mem_get, hname, hb, hv]⟩
          | some v => simp [hv, Option.isSome] at hp
        · cases hv : fs.find "value" with
          | none => exact ⟨.keyError, by simp [mem_get, hname, hb, hv]⟩
          | some v =>
              cases hlm : fs.find "last_modified" with
              | none => exact ⟨.keyError, by simp [mem_get, hname, hb, hv, hlm]⟩
              | some lm => simp [hlm, Option.isSome] at hp
    | null => exact ⟨.typeError, by simp [mem_get, hname, hb]⟩
    | bool x => exact ⟨.typeError, by simp [mem_get, hname, hb]⟩
    | num x => exact ⟨.typeError, by simp [mem_get, hname, hb]⟩
    | str x => exact ⟨.typeError, by simp [mem_get, hname, hb]⟩
    | arr x => exact ⟨.typeError, by simp [mem_get, hname, hb]⟩

/-- Witness for `fetched_object_handling`: a proper payload preloaded
through its fields; a bare number preloaded whole; a proper payload
fetched on the read path; and a bare number on the read path raising. -/
theorem fetched_object_handling_w :
    (loadEntry initState ("k", (Payload.mk (.num 4) (.num 6)).toJVal) =
      { initState with attributes := aset initState.attributes "k" (.plain (.num 4)),
                       last_modified := aset initState.last_modified "k" (.num 6),
                       connectedOnce := true }) ∧
    (loadEntry initState ("k", .num 4) =
      { initState with attributes := aset initState.attributes "k" (.plain (.num 4)),
                       connectedOnce := true }) ∧
    ((mem_get true initState [("k", (Payload.mk (.num 4) (.num 6)).toJVal)] "k").2 =
      .ok (wrap_sync (.num 4) "k")) ∧
    (∃ e, (mem_get true initState [("k", .num 4)] "k").2 = .error e) := by
  refine ⟨(fetched_object_handling initState "k"
            (Payload.mk (.num 4) (.num 6)).toJVal).1
            (.cons "value" (.num 4) (.cons "last_modified" (.num 6) .nil))
            (.num 4) (.num 6) (by decide) (by decide) (by decide),
          (fetched_object_handling initState "k" (.num 4)).2.1 (by decide),
          (fetched_object_handling initState "k"
            (Payload.mk (.num 4) (.num 6)).toJVal).2.2.1 _
            (.cons "value" (.num 4) (.cons "last_modified" (.num 6) .nil))
            (.num 4) (.num 6) (by decide) (by decide) (by decide) (by decide),
          (fetched_object_handling initState "k" (.num 4)).2.2.2 _
            (by decide) (by decide) (by decide)⟩

/-!
## C8 — configuration surface of `Memory.__init__`
-/

/-- The process environment as consulted by `Memory.__init__`:
`REDIS_HOST`, `REDIS_PORT`, and `REDIS_PREFIX` (the last documented in
the class docstring, line 106) each present or absent. -/
structure PyEnv where
  redis_host : Option String
  redis_port : Option String
  redis_pref : Option String
deriving DecidableEq, Repr

/-- The connection parameters a constructed `Memory` ends up with
(`_host`, `_port`, `_prefix`). -/
structure ConnConfig where
  host : String
  port : Option Int
  pref : String
deriving DecidableEq, Repr

/-- One decimal digit of `int(s)`. -/
def digitVal (c : Char) : Option Nat :=
  if 48 ≤ c.toNat ∧ c.toNat ≤ 57 then some (c.toNat - 48) else none

def parseNatGo : Option Nat → List Char → Option Nat
  | acc, [] => acc
  | none, _ => none
  | some n, c :: cs =>
      match digitVal c with
      | none => none
      | some d => parseNatGo (some (n * 10 + d)) cs

/-- Python `int(s)` on a decimal string with an optional sign
(whitespace trimming and other bases are out of scope); `none` models
the raised `ValueError`. -/
def pyInt (s : String) : Option Int :=
  match s.data with
  | [] => none
  | '-' :: cs =>
      match cs with
      | [] => none
      | _ => (parseNatGo (some 0) cs).map fun n => -(n : Int)
  | cs => (parseNatGo (some 0) cs).map fun n => (n : Int)

/-- The configuration lines of `Memory.__init__` (141–143): `_host` and
`_port` consult `os.environ` with the argument as fallback; `_prefix`
is taken from the `redis_prefix` argument alone — `REDIS_PREFIX` is
never read.  `int()` of a non-numeric `REDIS_PORT` raises (`none`). -/
def memory_init_config (env : PyEnv) (redis_hostname : String)
    (redis_port : Int) (redis_pref : String) : ConnConfig :=
  { host := env.redis_host.getD redis_hostname
  , port := match env.redis_port with
            | some p => pyInt p
            | none => some redis_port
  , pref := redis_pref }

/-- C8 evaluation at the failing input: with `REDIS_PREFIX=custom:` set
in the environment, the constructed prefix is still the argument
`memory:` — the environment override documented for the prefix does not
exist, while host and port overrides do work. -/
theorem init_env_override_eval :
    ((memory_init_config ⟨none, none, some "custom:"⟩ "redis" 6379 "memory:").pref
        = "memory:") ∧
    (memory_init_config ⟨some "h", some "1234", some "custom:"⟩ "redis" 6379
        "memory:" = ⟨"h", some 1234, "memory:"⟩) := by
  constructor
  · rfl
  · decide

/-!
## C5 — in-place mutation propagation

The `_parent` chain of the wrappers is positional in the tree model: the
parent of a wrapper at path `st :: p` inside `root` is the wrapper one
step up, and the parent of `root` itself is the owning `Memory`.
-/

/-- `l[i]` on a wrapped list. -/
def WList.get? : WList → Nat → Option WVal
  | .nil, _ => none
  | .cons v _, 0 => some v
  | .cons _ rest, n + 1 => rest.get? n

/-- Replace element `i` (identity when out of range; only used where the
index is known to be valid). -/
def WList.setIdx : WList → Nat → WVal → WList
  | .nil, _, _ => .nil
  | .cons _ rest, 0, x => .cons x rest
  | .cons v rest, n + 1, x => .cons v (rest.setIdx n x)

/-- `list.append` (adds at the tail). -/
def WList.append1 : WList → WVal → WList
  | .nil, x => .cons x .nil
  | .cons v rest, x => .cons v (rest.append1 x)

/-- `list.insert(i, x)`: inserts before index `i`, clamping to the end
as Python does. -/
def WList.insertIdx : WList → Nat → WVal → WList
  | l, 0, x => .cons x l
  | .nil, _ + 1, x => .cons x .nil
  | .cons v rest, n + 1, x => .cons v (rest.insertIdx n x)

/-- List concatenation, for `list.extend`. -/
def WList.concat : WList → WList → WList
  | .nil, ys => ys
  | .cons v rest, ys => .cons v (rest.concat ys)

/-- `d[k]` on a wrapped dict. -/
def WObj.get? : WObj → String → Option WVal
  | .nil, _ => none
  | .cons k' v rest, k => if k' = k then some v else rest.get? k

/-- `dict.__setitem__`: replace in place, else append. -/
def WObj.setFld : WObj → String → WVal → WObj
  | .nil, k, x => .cons k x .nil
  | .cons k' v rest, k, x =>
      if k' = k then .cons k x rest else .cons k' v (rest.setFld k x)

/-- The arguments of the intercepted methods are plain Python values,
stored as given (the methods do not wrap them). -/
def jlistPlain : JList → WList
  | .nil => .nil
  | .cons v rest => .cons (.plain v) (jlistPlain rest)

/-- One step into a wrapped structure: a list index or a dict key. -/
inductive PStep where
  | idx : Nat → PStep
  | fld : String → PStep
deriving DecidableEq, Repr

abbrev Path := List PStep

/-- The child a step designates. -/
def childAt : WVal → PStep → Option WVal
  | .slist _ items, .idx i => items.get? i
  | .sdict _ fs, .fld k => fs.get? k
  | _, _ => none

/-- The node a path designates. -/
def nodeAt : WVal → Path → Option WVal
  | w, [] => some w
  | w, st :: p =>
      match childAt w st with
      | none => none
      | some c => nodeAt c p

/-- Replace the designated child (identity when the receiver is not a
wrapper of the right shape). -/
def setChild : WVal → PStep → WVal → WVal
  | .slist k items, .idx i, x => .slist k (items.setIdx i x)
  | .sdict k fs, .fld key, x => .sdict k (fs.setFld key x)
  | w, _, _ => w

/-- Replace the node a path designates (identity when the path is
dead). -/
def setAt : WVal → Path → WVal → WVal
  | _, [], x => x
  | w, st :: p, x =>
      match childAt w st with
      | none => w
      | some c => setChild w st (setAt c p x)

/-- The chain of `self._parent.sync(self._topmost_key)` calls started by
a mutating method of the wrapper at path `p` inside `root`
(`SyncedList.sync` / `SyncedDict.sync`, lines 25–38 and 63–72): every
wrapper ignores the name it receives and hands its own `_topmost_key` to
its parent, so the call that finally reaches the `Memory` carries the
key of the outermost wrapper.  Returns that name; `none` when the node
at `p` is not a wrapper (plain values intercept nothing). -/
def parentSync : WVal → Path → Option String
  | w, [] => w.key
  | w, st :: p =>
      match childAt w st with
      | none => none
      | some c =>
          match parentSync c p with
          | none => none
          | some _ => w.key

/-- The intercepted in-place mutations (lines 25–35, 63–69). -/
inductive MutOp where
  | appendM : JVal → MutOp
  | insertM : Nat → JVal → MutOp
  | extendM : JList → MutOp
  | setItemM : String → JVal → MutOp
  | updateM : List (String × JVal) → MutOp
deriving DecidableEq, Repr

/-- `super().append(...)` etc. on the receiving wrapper; `none` when the
operation does not exist on the receiver. -/
def applyOp : WVal → MutOp → Option WVal
  | .slist k items, .appendM x => some (.slist k (items.append1 (.plain x)))
  | .slist k items, .insertM i x => some (.slist k (items.insertIdx i (.plain x)))
  | .slist k items, .extendM xs => some (.slist k (items.concat (jlistPlain xs)))
  | .sdict k fs, .setItemM key x => some (.sdict k (fs.setFld key (.plain x)))
  | .sdict k fs, .updateM kvs =>
      some (.sdict k (kvs.foldl (fun a q => a.setFld q.1 (.plain q.2)) fs))
  | _, _ => none

/-- One in-place mutation on the wrapper at path `p`: the structural
update followed by the bubbled `self._parent.sync(self._topmost_key)`
call.  Returns the updated tree and the name `Memory.sync` receives. -/
def mutateAt (root : WVal) (p : Path) (op : MutOp) : Option (WVal × String) :=
  match nodeAt root p with
  | none => none
  | some w =>
      match applyOp w op with
      | none => none
      | some w' =>
          match parentSync root p with
          | none => none
          | some k => some (setAt root p w', k)

theorem parentSync_eq_key (w : WVal) (p : Path) (k : String)
    (h : parentSync w p = some k) : w.key = some k := by
  cases p with
  | nil => exact h
  | cons st rest =>
      cases hc : childAt w st with
      | none => simp [parentSync, hc] at h
      | some c =>
          cases hp : parentSync c rest with
          | none => simp [parentSync, hc, hp] at h
          | some k' =>
              simp only [parentSync, hc, hp] at h
              exact h

theorem wrap_sync_key (v : JVal) (name k : String)
    (h : (wrap_sync v name).key = some k) : k = name := by
  cases v <;> simp [wrap_sync, WVal.key] at h <;> exact h.symm

theorem WList.get_setIdx :
    ∀ (l : WList) (i : Nat) (x c : WVal),
      l.get? i = some c → (l.setIdx i x).get? i = some x
  | .nil, i, x, c, h => by simp [WList.get?] at h
  | .cons v rest, 0, x, c, _ => by simp [WList.setIdx, WList.get?]
  | .cons v rest, n + 1, x, c, h => by
      simpa [WList.setIdx, WList.get?] using
        WList.get_setIdx rest n x c (by simpa [WList.get?] using h)

theorem WObj.get_setFld :
    ∀ (o : WObj) (k : String) (x : WVal), (o.setFld k x).get? k = some x
  | .nil, k, x => by simp [WObj.setFld, WObj.get?]
  | .cons k' v rest, k, x => by
      by_cases h : k' = k
      · simp [WObj.setFld, WObj.get?, h]
      · simp [WObj.setFld, WObj.get?, h, WObj.get_setFld rest k x]

theorem childAt_setChild (w : WVal) (st : PStep) (c x : WVal)
    (h : childAt w st = some c) : childAt (setChild w st x) st = some x := by
  cases w with
  | plain v => simp [childAt] at h
  | slist k items =>
      cases st with
      | idx i => simpa [childAt, setChild] using WList.get_setIdx items i x c (by simpa [childAt] using h)
      | fld key => simp [childAt] at h
  | sdict k fs =>
      cases st with
      | idx i => simp [childAt] at h
      | fld key => simpa [childAt, setChild] using WObj.get_setFld fs key x

theorem nodeAt_setAt (root : WVal) (p : Path) (w x : WVal)
    (h : nodeAt root p = some w) : nodeAt (setAt root p x) p = some x := by
  induction p generalizing root with
  | nil => simp [nodeAt, setAt]
  | cons st rest ih =>
      cases hc : childAt root st with
      | none => simp [nodeAt, hc] at h
      | some c =>
          have h' : nodeAt c rest = some w := by simpa [nodeAt, hc] using h
          have hc' := childAt_setChild root st c (setAt c rest x) hc
          simp only [setAt, hc, nodeAt, hc']
          exact ih c h'

/-- C5: any intercepted in-place mutation (`append`, `insert`, `extend`
on a wrapped list; item assignment or `update` on a wrapped dict) at any
nesting depth inside a value wrapped under top-level `name` applies the
structural change at that spot and invokes `Memory.sync` with exactly
`name`, so the mutated top-level entry is re-synchronized without an
explicit set call. -/
theorem nested_mutation_syncs_topmost :
    ∀ (v : JVal) (name : String) (p : Path) (op : MutOp) (t : WVal) (k : String),
      mutateAt (wrap_sync v name) p op = some (t, k) →
      k = name ∧
      ∃ w w', nodeAt (wrap_sync v name) p = some w ∧ applyOp w op = some w' ∧
        nodeAt t p = some w' := by
  intro v name p op t k h
  cases hn : nodeAt (wrap_sync v name) p with
  | none => simp [mutateAt, hn] at h
  | some w =>
      cases ha : applyOp w op with
      | none => simp [mutateAt, hn, ha] at h
      | some w' =>
          cases hs : parentSync (wrap_sync v name) p with
          | none => simp [mutateAt, hn, ha, hs] at h
          | some k' =>
              obtain ⟨ht, hk⟩ : setAt (wrap_sync v name) p w' = t ∧ k' = k := by
                simpa [mutateAt, hn, ha, hs, Prod.ext_iff] using h
              subst ht
              subst hk
              exact ⟨(wrap_sync_key v name k'
                        (parentSync_eq_key (wrap_sync v name) p k' hs)),
                     w, w', rfl, ha, nodeAt_setAt (wrap_sync v name) p w w' hn⟩

/-- Witness for `nested_mutation_syncs_topmost`: appending `4` to the
inner list of `L = [1, [2, 3]]` at path `[1]` updates the tree and calls
`Memory.sync` with `"L"`, the top-level name. -/
theorem nested_mutation_syncs_topmost_w :
    (mutateAt (wrap_sync (.arr (.cons (.num 1)
        (.cons (.arr (.cons (.num 2) (.cons (.num 3) .nil))) .nil))) "L")
        [.idx 1] (.appendM (.num 4))).map Prod.snd = some "L" ∧
    (∃ w w', nodeAt (wrap_sync (.arr (.cons (.num 1)
        (.cons (.arr (.cons (.num 2) (.cons (.num 3) .nil))) .nil))) "L")
        [.idx 1] = some w ∧ applyOp w (.appendM (.num 4)) = some w') := by
  have h := nested_mutation_syncs_topmost
    (.arr (.cons (.num 1) (.cons (.arr (.cons (.num 2) (.cons (.num 3) .nil))) .nil)))
    "L" [.idx 1] (.appendM (.num 4))
    (wrap_sync (.arr (.cons (.num 1)
      (.cons (.arr (.cons (.num 2) (.cons (.num 3) (.cons (.num 4) .nil)))) .nil))) "L")
    "L" (by decide)
  exact ⟨by decide, h.2.elim fun w hw => ⟨w, hw.elim fun w' h' => ⟨w', h'.1, h'.2.1⟩⟩⟩

/-!
## C9 — detach under reference semantics

`aslist`/`asdict` are judged on a heap: container objects live at
addresses and elements hold references, Python assignment copying
references and never structure.  This makes visible which parts of a
detached result are freshly allocated and which are shared with the
store's own copy — the mutating wrapper methods store their arguments
unwrapped (`super().append(item)`, line 26), so tracked containers
routinely hold references to plain containers.
-/

/-- An element of a Python container: an immutable primitive or a
reference to another container object on the heap. -/
inductive HElem where
  | prim : JVal → HElem
  | ref : Nat → HElem
deriving DecidableEq, Repr

/-- A container object: a plain `list`/`dict`, or a tracking wrapper
(`SyncedList`/`SyncedDict` with its `_topmost_key`). -/
inductive HCell where
  | plainList : List HElem → HCell
  | plainDict : List (String × HElem) → HCell
  | syncList : String → List HElem → HCell
  | syncDict : String → List (String × HElem) → HCell
deriving DecidableEq, Repr

/-- Whether a cell is a plain (untracked) container. -/
def HCell.plain : HCell → Bool
  | .plainList _ => true
  | .plainDict _ => true
  | _ => false

abbrev Heap := List (Nat × HCell)

/-- Dereference an address. -/
def hget : Heap → Nat → Option HCell
  | [], _ => none
  | (a', c) :: rest, a => if a' = a then some c else hget rest a

/-- Store a cell at an address (in place if live, else allocate). -/
def hset : Heap → Nat → HCell → Heap
  | [], a, c => [(a, c)]
  | (a', c') :: rest, a, c =>
      if a' = a then (a, c) :: rest else (a', c') :: hset rest a c

theorem hget_hset (h : Heap) (a : Nat) (c : HCell) (b : Nat) :
    hget (hset h a c) b = if a = b then some c else hget h b := by
  induction h with
  | nil => simp [hset, hget]
  | cons hd tl ih =>
      obtain ⟨a', c'⟩ := hd
      simp only [hset]
      by_cases ha : a' = a
      · subst ha
        simp only [if_pos rfl, hget]
        by_cases hb : a' = b <;> simp [hb]
      · rw [if_neg ha]
        simp only [hget]
        by_cases hb : a' = b
        · have : ¬ a = b := fun hq => ha (by rw [hb, hq])
          simp [hb, this]
        · simp [hb, ih]

mutual

/-- One element of the `aslist`/`asdict` loops (lines 44–50, 78–84): an
element referencing a tracking wrapper is recursively converted into a
freshly allocated plain cell; every other element — a primitive, or a
reference to a plain container — is returned as-is, sharing the
referenced object with the original.  `next` is the allocator (all live
addresses are kept below it); `fuel` bounds the recursion, a modelling
device absent from the source. -/
def detachElemH : Nat → Heap → Nat → HElem → Option (Heap × Nat × HElem)
  | 0, _, _, _ => none
  | _ + 1, h, next, .prim j => some (h, next, .prim j)
  | fuel + 1, h, next, .ref a =>
      match hget h a with
      | some (.syncList _ its) =>
          match detachItemsH fuel h next its with
          | none => none
          | some (h', n', its') => some (hset h' n' (.plainList its'), n' + 1, .ref n')
      | some (.syncDict _ fs) =>
          match detachFieldsH fuel h next fs with
          | none => none
          | some (h', n', fs') => some (hset h' n' (.plainDict fs'), n' + 1, .ref n')
      | _ => some (h, next, .ref a)

/-- The `for item in self` loop of `aslist` (lines 43–50). -/
def detachItemsH : Nat → Heap → Nat → List HElem → Option (Heap × Nat × List HElem)
  | 0, _, _, _ => none
  | _ + 1, h, next, [] => some (h, next, [])
  | fuel + 1, h, next, e :: rest =>
      match detachElemH fuel h next e with
      | none => none
      | some (h', n', e') =>
          match detachItemsH fuel h' n' rest with
          | none => none
          | some (h'', n'', rest') => some (h'', n'', e' :: rest')

/-- The `for key, value in self.items()` loop of `asdict` (lines
77–84). -/
def detachFieldsH : Nat → Heap → Nat →
    List (String × HElem) → Option (Heap × Nat × List (String × HElem))
  | 0, _, _, _ => none
  | _ + 1, h, next, [] => some (h, next, [])
  | fuel + 1, h, next, (k, e) :: rest =>
      match detachElemH fuel h next e with
      | none => none
      | some (h', n', e') =>
          match detachFieldsH fuel h' n' rest with
          | none => none
          | some (h'', n'', rest') => some (h'', n'', (k, e') :: rest')

end

/-- `w.aslist()` / `w.asdict()` invoked on the wrapper at address `a`:
the detach entry point, returning the updated heap, the new allocator
and the address of the detached result. -/
def detachRootH (fuel : Nat) (h : Heap) (next : Nat) (a : Nat) :
    Option (Heap × Nat × Nat) :=
  match hget h a with
  | some (.syncList _ _) =>
      (match detachElemH fuel h next (.ref a) with
       | some (h', n', .ref r) => some (h', n', r)
       | _ => none)
  | some (.syncDict _ _) =>
      (match detachElemH fuel h next (.ref a) with
       | some (h', n', .ref r) => some (h', n', r)
       | _ => none)
  | _ => none

/-- `lst.append(x)` on the heap object at `a`: the in-place update, and
whether a tracking wrapper intercepted it (`SyncedList.append`, lines
25–27, starts the parent sync chain; a plain list triggers nothing). -/
def happend (h : Heap) (a : Nat) (x : HElem) : Option (Heap × Bool) :=
  match hget h a with
  | some (.plainList its) => some (hset h a (.plainList (its ++ [x])), false)
  | some (.syncList k its) => some (hset h a (.syncList k (its ++ [x])), true)
  | _ => none

/-- `d[k] = x` on the heap object at `a` (`SyncedDict.__setitem__`,
lines 63–65 for the wrapper; a plain dict triggers nothing). -/
def hsetItem (h : Heap) (a : Nat) (k : String) (x : HElem) : Option (Heap × Bool) :=
  match hget h a with
  | some (.plainDict fs) => some (hset h a (.plainDict (aset fs k x)), false)
  | some (.syncDict key fs) => some (hset h a (.syncDict key (aset fs k x)), true)
  | _ => none

mutual

/-- The plain value reachable from an element, reading through the
heap. -/
def hvalElem : Nat → Heap → HElem → Option JVal
  | 0, _, _ => none
  | _ + 1, _, .prim j => some j
  | fuel + 1, h, .ref a =>
      match hget h a with
      | some (.plainList its) =>
          match hvalItems fuel h its with
          | none => none
          | some l => some (.arr l)
      | some (.syncList _ its) =>
          match hvalItems fuel h its with
          | none => none
          | some l => some (.arr l)
      | some (.plainDict fs) =>
          match hvalFields fuel h fs with
          | none => none
          | some o => some (.obj o)
      | some (.syncDict _ fs) =>
          match hvalFields fuel h fs with
          | none => none
          | some o => some (.obj o)
      | none => none

def hvalItems : Nat → Heap → List HElem → Option JList
  | 0, _, _ => none
  | _ + 1, _, [] => some .nil
  | fuel + 1, h, e :: rest =>
      match hvalElem fuel h e with
      | none => none
      | some v =>
          match hvalItems fuel h rest with
          | none => none
          | some l => some (.cons v l)

def hvalFields : Nat → Heap → List (String × HElem) → Option JObj
  | 0, _, _ => none
  | _ + 1, _, [] => some .nil
  | fuel + 1, h, (k, e) :: rest =>
      match hvalElem fuel h e with
      | none => none
      | some v =>
          match hvalFields fuel h rest with
          | none => none
          | some o => some (.cons k v o)

end

/-- The heap after `mem.items = [1, 2]` followed by
`mem.items.append([3, 4])`: address 0 holds the store's tracked list,
whose third element references the untracked plain list at address 1 —
`append` stored its argument unwrapped (line 26). -/
def heapEx0 : Heap :=
  [(0, .syncList "items" [.prim (.num 1), .prim (.num 2), .ref 1]),
   (1, .plainList [.prim (.num 3), .prim (.num 4)])]

/-- `heapEx0` after `d = mem.items.aslist()`: the detached plain list at
address 2 shares the reference to address 1 with the store's copy. -/
def heapEx1 : Heap :=
  heapEx0 ++ [(2, .plainList [.prim (.num 1), .prim (.num 2), .ref 1])]

/-- `heapEx1` after `d[2].append(5)`: the shared cell at address 1
changed in place underneath the store's tracked list. -/
def heapEx2 : Heap :=
  [(0, .syncList "items" [.prim (.num 1), .prim (.num 2), .ref 1]),
   (1, .plainList [.prim (.num 3), .prim (.num 4), .prim (.num 5)]),
   (2, .plainList [.prim (.num 1), .prim (.num 2), .ref 1])]

mutual

theorem detachElemH_preserves :
    ∀ (fuel : Nat) (h : Heap) (next : Nat) (e : HElem)
      (h' : Heap) (n' : Nat) (e' : HElem),
      detachElemH fuel h next e = some (h', n', e') →
      next ≤ n' ∧ ∀ b, b < next → hget h' b = hget h b
  | 0, h, next, e, h', n', e', hd => by simp [detachElemH] at hd
  | fuel + 1, h, next, .prim j, h', n', e', hd => by
      simp only [detachElemH, Option.some.inj, Prod.mk.injEq] at hd
      obtain ⟨rfl, rfl, rfl⟩ := hd
      exact ⟨le_refl _, fun b _ => rfl⟩
  | fuel + 1, h, next, .ref a, h', n', e', hd => by
      cases hg : hget h a with
      | none =>
          simp only [detachElemH, hg, Option.some.inj, Prod.mk.injEq] at hd
          obtain ⟨rfl, rfl, rfl⟩ := hd
          exact ⟨le_refl _, fun b _ => rfl⟩
      | some c =>
          cases c with
          | plainList its =>
              simp only [detachElemH, hg, Option.some.inj, Prod.mk.injEq] at hd
              obtain ⟨rfl, rfl, rfl⟩ := hd
              exact ⟨le_refl _, fun b _ => rfl⟩
          | plainDict fs =>
              simp only [detachElemH, hg, Option.some.inj, Prod.mk.injEq] at hd
              obtain ⟨rfl, rfl, rfl⟩ := hd
              exact ⟨le_refl _, fun b _ => rfl⟩
          | syncList k its =>
              cases hi : detachItemsH fuel h next its with
              | none => simp [detachElemH, hg, hi] at hd
              | some r =>
                  obtain ⟨h₁, n₁, its'⟩ := r
                  simp only [detachElemH, hg, hi, Option.some.inj,
                    Prod.mk.injEq] at hd
                  obtain ⟨hh, hn, he2⟩ := hd
                  obtain ⟨hle, hp⟩ :=
                    detachItemsH_preserves fuel h next its _ _ _ hi
                  refine ⟨Nat.le_succ_of_le hle, fun b hb => ?_⟩
                  rw [hget_hset]
                  have hne : ¬ n₁ = b := by omega
                  rw [if_neg hne]
                  exact hp b hb
          | syncDict k fs =>
              cases hi : detachFieldsH fuel h next fs with
              | none => simp [detachElemH, hg, hi] at hd
              | some r =>
                  obtain ⟨h₁, n₁, fs'⟩ := r
                  simp only [detachElemH, hg, hi, Option.some.inj,
                    Prod.mk.injEq] at hd
                  obtain ⟨hh, hn, he2⟩ := hd
                  obtain ⟨hle, hp⟩ :=
                    detachFieldsH_preserves fuel h next fs _ _ _ hi
                  refine ⟨Nat.le_succ_of_le hle, fun b hb => ?_⟩
                  rw [hget_hset]
                  have hne : ¬ n₁ = b := by omega
                  rw [if_neg hne]
                  exact hp b hb

theorem detachItemsH_preserves :
    ∀ (fuel : Nat) (h : Heap) (next : Nat) (l : List HElem)
      (h' : Heap) (n' : Nat) (l' : List HElem),
      detachItemsH fuel h next l = some (h', n', l') →
      next ≤ n' ∧ ∀ b, b < next → hget h' b = hget h b
  | 0, h, next, l, h', n', l', hd => by simp [detachItemsH] at hd
  | fuel + 1, h, next, [], h', n', l', hd => by
      simp only [detachItemsH, Option.some.inj, Prod.mk.injEq] at hd
      obtain ⟨rfl, rfl, rfl⟩ := hd
      exact ⟨le_refl _, fun b _ => rfl⟩
  | fuel + 1, h, next, e :: rest, h', n', l', hd => by
      cases he : detachElemH fuel h next e with
      | none => simp [detachItemsH, he] at hd
      | some r1 =>
          obtain ⟨h₁, n₁, e'⟩ := r1
          cases hr : detachItemsH fuel h₁ n₁ rest with
          | none => simp [detachItemsH, he, hr] at hd
          | some r2 =>
              obtain ⟨h₂, n₂, rest'⟩ := r2
              simp only [detachItemsH, he, hr, Option.some.inj,
                Prod.mk.injEq] at hd
              obtain ⟨hh, hn, he2⟩ := hd
              obtain ⟨hle1, hp1⟩ :=
                detachElemH_preserves fuel h next e _ _ _ he
              obtain ⟨hle2, hp2⟩ :=
                detachItemsH_preserves fuel h₁ n₁ rest _ _ _ hr
              refine ⟨le_trans hle1 hle2, fun b hb => ?_⟩
              rw [hp2 b (lt_of_lt_of_le hb hle1), hp1 b hb]

theorem detachFieldsH_preserves :
    ∀ (fuel : Nat) (h : Heap) (next : Nat) (l : List (String × HElem))
      (h' : Heap) (n' : Nat) (l' : List (String × HElem)),
      detachFieldsH fuel h next l = some (h', n', l') →
      next ≤ n' ∧ ∀ b, b < next → hget h' b = hget h b
  | 0, h, next, l, h', n', l', hd => by simp [detachFieldsH] at hd
  | fuel + 1, h, next, [], h', n', l', hd => by
      simp only [detachFieldsH, Option.some.inj, Prod.mk.injEq] at hd
      obtain ⟨rfl, rfl, rfl⟩ := hd
      exact ⟨le_refl _, fun b _ => rfl⟩
  | fuel + 1, h, next, (k, e) :: rest, h', n', l', hd => by
      cases he : detachElemH fuel h next e with
      | none => simp [detachFieldsH, he] at hd
      | some r1 =>
          obtain ⟨h₁, n₁, e'⟩ := r1
          cases hr : detachFieldsH fuel h₁ n₁ rest with
          | none => simp [detachFieldsH, he, hr] at hd
          | some r2 =>
              obtain ⟨h₂, n₂, rest'⟩ := r2
              simp only [detachFieldsH, he, hr, Option.some.inj,
                Prod.mk.injEq] at hd
              obtain ⟨hh, hn, he2⟩ := hd
              obtain ⟨hle1, hp1⟩ :=
                detachElemH_preserves fuel h next e _ _ _ he
              obtain ⟨hle2, hp2⟩ :=
                detachFieldsH_preserves fuel h₁ n₁ rest _ _ _ hr
              refine ⟨le_trans hle1 hle2, fun b hb => ?_⟩
              rw [hp2 b (lt_of_lt_of_le hb hle1), hp1 b hb]

end

theorem detachRootH_fresh :
    ∀ (fuel : Nat) (h : Heap) (next : Nat) (a : Nat)
      (h' : Heap) (n' r : Nat),
      detachRootH fuel h next a = some (h', n', r) →
      next ≤ r ∧ (∀ b, b < next → hget h' b = hget h b) ∧
      ∃ c, hget h' r = some c ∧ HCell.plain c = true := by
  intro fuel h next a h' n' r hd
  cases fuel with
  | zero =>
      cases hg : hget h a with
      | none => simp [detachRootH, hg] at hd
      | some c => cases c <;> simp [detachRootH, detachElemH, hg] at hd
  | succ fuel =>
      cases hg : hget h a with
      | none => simp [detachRootH, hg] at hd
      | some c =>
          cases c with
          | plainList its => simp [detachRootH, hg] at hd
          | plainDict fs => simp [detachRootH, hg] at hd
          | syncList k its =>
              cases hi : detachItemsH fuel h next its with
              | none => simp [detachRootH, detachElemH, hg, hi] at hd
              | some r1 =>
                  obtain ⟨h₁, n₁, its'⟩ := r1
                  simp only [detachRootH, detachElemH, hg, hi,
                    Option.some.inj, Prod.mk.injEq] at hd
                  obtain ⟨hh, hn, hr2⟩ := hd
                  obtain ⟨hle, hp⟩ :=
                    detachItemsH_preserves fuel h next its _ _ _ hi
                  refine ⟨hle, fun b hb => ?_, .plainList its', ?_, rfl⟩
                  · rw [hget_hset]
                    split
                    · omega
                    · exact hp b hb
                  · rw [hget_hset, if_pos rfl]
          | syncDict k fs =>
              cases hi : detachFieldsH fuel h next fs with
              | none => simp [detachRootH, detachElemH, hg, hi] at hd
              | some r1 =>
                  obtain ⟨h₁, n₁, fs'⟩ := r1
                  simp only [detachRootH, detachElemH, hg, hi,
                    Option.some.inj, Prod.mk.injEq] at hd
                  obtain ⟨hh, hn, hr2⟩ := hd
                  obtain ⟨hle, hp⟩ :=
                    detachFieldsH_preserves fuel h next fs _ _ _ hi
                  refine ⟨hle, fun b hb => ?_, .plainDict fs', ?_, rfl⟩
                  · rw [hget_hset]
                    split
                    · omega
                    · exact hp b hb
                  · rw [hget_hset, if_pos rfl]

/-- C9 counterexample.  Provenance: `mem.items = [1, 2]` wraps the list
(address 0, a `SyncedList` keyed `"items"`); `mem.items.append([3, 4])`
stores its argument unwrapped (line 26), leaving the plain list at
address 1 inside the wrapper; `d = mem.items.aslist()` builds the plain
cell at address 2 whose third element is the same reference to address
1 (the else-branch at line 50 appends by reference).  `d[2].append(5)`
then updates address 1 in place with no wrapper intercepting it: the
store's own copy, read through address 0, changes from `[1, 2, [3, 4]]`
to `[1, 2, [3, 4, 5]]` with no resynchronization — the detached value is
not an independent deep copy.  The final conjunct shows a live wrapper
accepted as-is by JSON serialization: `sync` succeeds in writing
`json.dumps` of a payload holding the wrapper (lines 381, 394), so
tracking containers do not refuse serialization machinery. -/
theorem detach_shared_substructure_counterexample :
    (detachRootH 9 heapEx0 2 0 = some (heapEx1, 3, 2)) ∧
    (hget heapEx1 2 = some (.plainList [.prim (.num 1), .prim (.num 2), .ref 1])) ∧
    (happend heapEx1 1 (.prim (.num 5)) = some (heapEx2, false)) ∧
    (hvalElem 9 heapEx1 (.ref 0) =
        some (.arr (.cons (.num 1) (.cons (.num 2)
          (.cons (.arr (.cons (.num 3) (.cons (.num 4) .nil))) .nil))))) ∧
    (hvalElem 9 heapEx2 (.ref 0) =
        some (.arr (.cons (.num 1) (.cons (.num 2)
          (.cons (.arr (.cons (.num 3) (.cons (.num 4) (.cons (.num 5) .nil))))
            .nil))))) ∧
    (mem_sync true ⟨[("L", .slist "L" (.cons (.plain (.num 1)) .nil))],
        [("L", .num 5)], [], true⟩ [] "L" =
      (⟨[("L", .slist "L" (.cons (.plain (.num 1)) .nil))], [("L", .num 5)],
          [], true⟩,
       aset [] "L" (Payload.mk (.arr (.cons (.num 1) .nil)) (.num 5)).toJVal,
       .ok ())) := by
  decide

/-- C9 (amended): detach allocates a fresh plain container and leaves
every pre-existing heap object unchanged; elements that are tracking
wrappers are recursively converted the same way, while every other
element — a primitive, or a reference to a plain container such as a
sublist that a mutating method stored unwrapped — is returned by
reference, shared with the store's copy; mutations of plain containers
(the detached spine, or such shared substructure) are intercepted by no
wrapper and trigger no resynchronization, and no mutation anywhere
inside a plain value reaches `Memory.sync`; detaching a wrapper tree
freshly built by `wrap_sync` denotes exactly the original plain
value. -/
theorem detach_behavior :
    (∀ (v : JVal) (k : String), unwrapW (wrap_sync v k) = v) ∧
    (∀ (fuel : Nat) (h : Heap) (next : Nat) (j : JVal),
        detachElemH (fuel + 1) h next (.prim j) = some (h, next, .prim j)) ∧
    (∀ (fuel : Nat) (h : Heap) (next : Nat) (a : Nat) (its : List HElem),
        hget h a = some (.plainList its) →
        detachElemH (fuel + 1) h next (.ref a) = some (h, next, .ref a)) ∧
    (∀ (fuel : Nat) (h : Heap) (next : Nat) (a : Nat)
        (fs : List (String × HElem)),
        hget h a = some (.plainDict fs) →
        detachElemH (fuel + 1) h next (.ref a) = some (h, next, .ref a)) ∧
    (∀ (fuel : Nat) (h : Heap) (next : Nat) (a : Nat)
        (h' : Heap) (n' r : Nat),
        detachRootH fuel h next a = some (h', n', r) →
        next ≤ r ∧ (∀ b, b < next → hget h' b = hget h b) ∧
        ∃ c, hget h' r = some c ∧ HCell.plain c = true) ∧
    (∀ (h : Heap) (a : Nat) (x : HElem) (its : List HElem),
        hget h a = some (.plainList its) →
        happend h a x = some (hset h a (.plainList (its ++ [x])), false)) ∧
    (∀ (h : Heap) (a : Nat) (k : String) (x : HElem)
        (fs : List (String × HElem)),
        hget h a = some (.plainDict fs) →
        hsetItem h a k x = some (hset h a (.plainDict (aset fs k x)), false)) ∧
    (∀ (v : JVal) (p : Path) (op : MutOp), mutateAt (.plain v) p op = none) := by
  refine ⟨unwrap_wrap, ?_, ?_, ?_, detachRootH_fresh, ?_, ?_, ?_⟩
  · intro fuel h next j
    simp [detachElemH]
  · intro fuel h next a its hg
    simp [detachElemH, hg]
  · intro fuel h next a fs hg
    simp [detachElemH, hg]
  · intro h a x its hg
    simp [happend, hg]
  · intro h a k x fs hg
    simp [hsetItem, hg]
  · intro v p op
    cases p with
    | nil => cases op <;> simp [mutateAt, nodeAt, applyOp]
    | cons st rest => simp [mutateAt, nodeAt, childAt]

/-- Witness for `detach_behavior` at concrete inputs: a primitive and
references to plain cells pass through detach unchanged and by
reference; the detach of `heapEx0`'s wrapper leaves the pre-existing
cell at address 1 untouched; an append and an item assignment on plain
cells report no resynchronization. -/
theorem detach_behavior_w :
    (detachElemH 1 [] 0 (.prim (.num 1)) = some ([], 0, .prim (.num 1))) ∧
    (detachElemH 1 [(1, .plainList [])] 0 (.ref 1) =
        some ([(1, .plainList [])], 0, .ref 1)) ∧
    (detachElemH 1 [(1, .plainDict [])] 0 (.ref 1) =
        some ([(1, .plainDict [])], 0, .ref 1)) ∧
    (hget heapEx1 1 = hget heapEx0 1) ∧
    (happend [(4, .plainList [])] 4 (.prim .null) =
        some (hset [(4, .plainList [])] 4 (.plainList ([] ++ [.prim .null])),
          false)) ∧
    (hsetItem [(4, .plainDict [])] 4 "k" (.prim .null) =
        some (hset [(4, .plainDict [])] 4 (.plainDict (aset [] "k" (.prim .null))),
          false)) := by
  refine ⟨detach_behavior.2.1 0 [] 0 (.num 1),
          detach_behavior.2.2.1 0 [(1, .plainList [])] 0 1 [] (by decide),
          detach_behavior.2.2.2.1 0 [(1, .plainDict [])] 0 1 [] (by decide),
          (detach_behavior.2.2.2.2.1 9 heapEx0 2 0 heapEx1 3 2 (by decide)).2.1
            1 (by decide),
          detach_behavior.2.2.2.2.2.1 [(4, .plainList [])] 4 (.prim .null) []
            (by decide),
          detach_behavior.2.2.2.2.2.2.1 [(4, .plainDict [])] 4 "k" (.prim .null)
            [] (by decide)⟩

/-!
## C10 — the last-modified index never outgrows the cache
-/

/-- The invariant on the two maps: every timestamped name is cached. -/
def covers (A : List (String × WVal)) (L : List (String × JVal)) : Prop :=
  ∀ n, (alookup L n).isSome → (alookup A n).isSome

/-- Every name in `_last_modified` is also in `_attributes`. -/
def lmCovered (s : MemState) : Prop := covers s.attributes s.last_modified

theorem covers_aset_both (A : List (String × WVal)) (L : List (String × JVal))
    (k : String) (w : WVal) (t : JVal) (h : covers A L) :
    covers (aset A k w) (aset L k t) := by
  intro n hn
  rw [alookup_aset] at hn ⊢
  by_cases hk : k = n
  · simp [hk]
  · simp only [if_neg hk] at hn ⊢
    exact h n hn

theorem covers_aset_attr (A : List (String × WVal)) (L : List (String × JVal))
    (k : String) (w : WVal) (h : covers A L) : covers (aset A k w) L := by
  intro n hn
  rw [alookup_aset]
  by_cases hk : k = n
  · simp [hk]
  · simp only [if_neg hk]
    exact h n hn

theorem covers_aerase (A : List (String × WVal)) (L : List (String × JVal))
    (k : String) (h : covers A L) : covers (aerase A k) (aerase L k) := by
  intro n hn
  rw [alookup_aerase] at hn ⊢
  by_cases hk : n = k
  · simp [hk] at hn
  · simp only [if_neg hk] at hn ⊢
    exact h n hn

theorem mem_set_covers (r : Bool) (now : Int) (s : MemState) (b : Backend)
    (name : String) (v : PyVal) (h : lmCovered s) :
    lmCovered (mem_set r now s b name v).1 := by
  by_cases hu : underscored name = true
  · simpa [mem_set, hu] using h
  · rw [Bool.not_eq_true] at hu
    cases v with
    | nonserial t => simpa [mem_set, hu] using h
    | serial jv =>
        cases r
        · simpa [mem_set, hu, lmCovered] using
            covers_aset_both s.attributes s.last_modified name _ _ h
        · simpa [mem_set, hu, lmCovered] using
            covers_aset_both s.attributes s.last_modified name _ _ h

theorem mem_get_covers (r : Bool) (s : MemState) (b : Backend) (name : String)
    (h : lmCovered s) : lmCovered (mem_get r s b name).1 := by
  by_cases hu : underscored name = true
  · simpa [mem_get, hu] using h
  · rw [Bool.not_eq_true] at hu
    cases r
    · cases ha : alookup s.attributes name with
      | none => simpa [mem_get, hu, ha] using h
      | some w =>
          by_cases hw : w = .plain .null
          · simpa [mem_get, hu, ha, hw] using h
          · simpa [mem_get, hu, ha, hw] using h
    · cases hb : alookup b name with
      | none => simpa [mem_get, hu, hb] using h
      | some raw =>
          cases raw with
          | obj fs =>
              cases hv : fs.find "value" with
              | none => simpa [mem_get, hu, hb, hv] using h
              | some v =>
                  cases hlm : fs.find "last_modified" with
                  | none =>
                      simpa [mem_get, hu, hb, hv, hlm, lmCovered] using
                        covers_aset_attr s.attributes s.last_modified name _ h
                  | some lm =>
                      simpa [mem_get, hu, hb, hv, hlm, lmCovered] using
                        covers_aset_both s.attributes s.last_modified name _ _ h
          | null => simpa [mem_get, hu, hb] using h
          | bool x => simpa [mem_get, hu, hb] using h
          | num x => simpa [mem_get, hu, hb] using h
          | str x => simpa [mem_get, hu, hb] using h
          | arr x => simpa [mem_get, hu, hb] using h

theorem mem_del_covers (r : Bool) (now : Int) (s : MemState) (b : Backend)
    (name : String) (h : lmCovered s) : lmCovered (mem_del r now s b name).1 := by
  by_cases hu : underscored name = true
  · simpa [mem_del, hu] using h
  · rw [Bool.not_eq_true] at hu
    cases ha : alookup s.attributes name with
    | none => simpa [mem_del, hu, ha] using h
    | some w =>
        cases r
        · simpa [mem_del, hu, ha, lmCovered] using
            covers_aerase s.attributes s.last_modified name h
        · simpa [mem_del, hu, ha, lmCovered] using
            covers_aerase s.attributes s.last_modified name h

theorem mem_sync_covers (r : Bool) (s : MemState) (b : Backend) (name : String)
    (h : lmCovered s) : lmCovered (mem_sync r s b name).1 := by
  cases ha : alookup s.attributes name with
  | none => simpa [mem_sync, ha] using h
  | some w =>
      cases r
      · simpa [mem_sync, ha] using h
      · cases hb : alookup b name with
        | none => simpa [mem_sync, ha, hb] using h
        | some raw =>
            cases raw with
            | obj fs =>
                cases hg : pyGE ((alookup s.last_modified name).getD (.num 0))
                    ((fs.find "last_modified").getD (.num 0)) with
                | none => simpa [mem_sync, ha, hb, hg] using h
                | some tv =>
                    cases tv
                    · simpa [mem_sync, ha, hb, hg, lmCovered] using
                        covers_aset_both s.attributes s.last_modified name _ _ h
                    · simpa [mem_sync, ha, hb, hg] using h
            | null => simpa [mem_sync, ha, hb] using h
            | bool x => simpa [mem_sync, ha, hb] using h
            | num x => simpa [mem_sync, ha, hb] using h
            | str x => simpa [mem_sync, ha, hb] using h
            | arr x => simpa [mem_sync, ha, hb] using h

theorem mem_flush_covers (s : MemState) (b : Backend) (h : lmCovered s) :
    lmCovered (mem_flush s b).1 := by
  rcases hfg : flushGo b s.connectedOnce s.queue with ⟨b', flag, rest, ok⟩
  simpa [mem_flush, hfg, lmCovered] using h

theorem loadEntry_covers (s : MemState) (e : String × JVal) (h : lmCovered s) :
    lmCovered (loadEntry s e) := by
  obtain ⟨name, o⟩ := e
  cases o with
  | obj fs =>
      cases hv : fs.find "value" with
      | none =>
          simpa [loadEntry, hv, lmCovered] using
            covers_aset_attr s.attributes s.last_modified name _ h
      | some v =>
          cases hlm : fs.find "last_modified" with
          | none =>
              simpa [loadEntry, hv, hlm, lmCovered] using
                covers_aset_attr s.attributes s.last_modified name _ h
          | some lm =>
              simpa [loadEntry, hv, hlm, lmCovered] using
                covers_aset_both s.attributes s.last_modified name _ _ h
  | null => simpa [loadEntry, lmCovered] using
      covers_aset_attr s.attributes s.last_modified name _ h
  | bool x => simpa [loadEntry, lmCovered] using
      covers_aset_attr s.attributes s.last_modified name _ h
  | num x => simpa [loadEntry, lmCovered] using
      covers_aset_attr s.attributes s.last_modified name _ h
  | str x => simpa [loadEntry, lmCovered] using
      covers_aset_attr s.attributes s.last_modified name _ h
  | arr x => simpa [loadEntry, lmCovered] using
      covers_aset_attr s.attributes s.last_modified name _ h

theorem mem_load_covers (r : Bool) (s : MemState) (b : Backend) (h : lmCovered s) :
    lmCovered (mem_load r s b) := by
  cases r
  · simpa [mem_load] using h
  · simp only [mem_load, if_pos]
    induction b generalizing s with
    | nil => exact h
    | cons e rest ih => exact ih (loadEntry s e) (loadEntry_covers s e h)

/-- One caller-visible event: a `set`, `get`, `delete`, explicit `sync`,
a background drain, or the construction-time bulk preload, each with the
environment's verdict on reachability and the clock reading. -/
inductive MStep where
  | setA : Bool → Int → String → PyVal → MStep
  | getA : Bool → String → MStep
  | delA : Bool → Int → String → MStep
  | syncA : Bool → String → MStep
  | flushA : MStep
  | loadA : Bool → MStep
deriving Repr

/-- The effect of one event on the store and the backend (outcomes are
dropped; the state components already record partial mutations). -/
def runStep : MemState × Backend → MStep → MemState × Backend
  | (s, b), .setA r now name v =>
      ((mem_set r now s b name v).1, (mem_set r now s b name v).2.1)
  | (s, b), .getA r name => ((mem_get r s b name).1, b)
  | (s, b), .delA r now name =>
      ((mem_del r now s b name).1, (mem_del r now s b name).2.1)
  | (s, b), .syncA r name =>
      ((mem_sync r s b name).1, (mem_sync r s b name).2.1)
  | (s, b), .flushA => ((mem_flush s b).1, (mem_flush s b).2.1)
  | (s, b), .loadA r => (mem_load r s b, b)

/-- All states reachable from a fresh store against an empty backend. -/
def runSteps (steps : List MStep) : MemState × Backend :=
  steps.foldl runStep (initState, [])

theorem runStep_covers (sb : MemState × Backend) (st : MStep)
    (h : lmCovered sb.1) : lmCovered (runStep sb st).1 := by
  obtain ⟨s, b⟩ := sb
  cases st with
  | setA r now name v => exact mem_set_covers r now s b name v h
  | getA r name => exact mem_get_covers r s b name h
  | delA r now name => exact mem_del_covers r now s b name h
  | syncA r name => exact mem_sync_covers r s b name h
  | flushA => exact mem_flush_covers s b h
  | loadA r => exact mem_load_covers r s b h

/-- C10: after any sequence of store operations — construction-time bulk
preload, set, get, delete, explicit sync and queue drains, reachable or
not — every name present in `_last_modified` is also present in
`_attributes`. -/
theorem lm_index_covered (steps : List MStep) : lmCovered (runSteps steps).1 := by
  suffices hgen : ∀ (sb : MemState × Backend), lmCovered sb.1 →
      lmCovered (steps.foldl runStep sb).1 by
    exact hgen (initState, []) (fun n hn => by simp [initState, alookup] at hn)
  induction steps with
  | nil => intro sb h; exact h
  | cons st rest ih => intro sb h; exact ih (runStep sb st) (runStep_covers sb st h)

end RedisMemory
